import Mathlib

/-!
Shallow embedding of the run-lifecycle orchestration and artifact-retrieval
engine of the marathon-cloud command-line client (Rust), together with
theorems settling the specification's testable properties against it.

The embedded source locations are:
* `src/artifacts.rs`   : `fetch_artifact_list`, `download_artifacts`
* `src/interactor.rs`  : `TriggerTestRunInteractor::execute`,
                         `DownloadArtifactsInteractor::execute`, `serialize_event`
* `src/api.rs`         : `RapiReqwestClient::download_artifact`, `api_error_adapter`
* `src/cli/mod.rs`     : `Cli::run` (exit-code mapping)

Rust `Result`/`Option` become `Except`/`Option`; the fallible network is passed
in explicitly (as response values, status sequences, or per-attempt outcome
functions); `tokio` task panics are modelled as a distinguished outcome value.
-/

deriving instance DecidableEq for Except

namespace MarathonCLI

/-- Artifact record returned by the remote listing endpoint
(`src/api.rs`, `struct Artifact { id, name, is_file }`). -/
structure Artifact where
  id : String
  name : String
  is_file : Bool
deriving DecidableEq, Repr

/-! Download retry loop (`src/artifacts.rs`, `download_artifacts`)

Each download task runs `for _try in 1..=3 { match download { Ok => inc; return,
Err => if _try < 4 { continue } else { panic } } }` inside `tokio::spawn`.
We model the per-task attempt outcomes as a function `attempt : Nat → Bool`
(`true` = the download call for that try number succeeds). The outcome records
whether the spawned task returned normally after `progress_bar.inc(1)`
(`success`), hit the `panic!` branch (`panicked`), or ran the `for` loop to the
end without returning (`fellThrough`). The second component counts
`progress_bar.inc(1)` calls made by the task. -/

inductive TaskOutcome where
  | success
  | panicked
  | fellThrough
deriving DecidableEq, Repr

/-- The body of the spawned task in `download_artifacts`: iterate over the
remaining try numbers of `1..=3`. -/
def runAttempts (attempt : Nat → Bool) : List Nat → TaskOutcome × Nat
  | [] => (.fellThrough, 0)
  | t :: rest =>
    if attempt t then (.success, 1)
    else if t < 4 then runAttempts attempt rest
    else (.panicked, 0)

/-- One download task of `download_artifacts`: the retry loop over tries 1, 2, 3. -/
def downloadTask (attempt : Nat → Bool) : TaskOutcome × Nat :=
  runAttempts attempt [1, 2, 3]

/-- The batch level of `download_artifacts`: `buffer_unordered` + `try_collect`
over the spawned tasks. A task that panicked surfaces as a `JoinError`, which
`try_collect` turns into `ArtifactError::DownloadFailed` (modelled `Except.error ()`);
any task that returns normally contributes `Ok`. The result counts the total
number of progress ticks of the whole batch. -/
def download_artifacts (tasks : List (Nat → Bool)) : Except Unit Nat :=
  tasks.foldl
    (fun acc t =>
      match acc with
      | .error e => .error e
      | .ok n =>
        match downloadTask t with
        | (.panicked, _) => .error ()
        | (_, k) => .ok (n + k))
    (.ok 0)

/-- Attempt pattern: fails on tries 1 and 2, succeeds on try 3. -/
def failTwiceThenOk : Nat → Bool := fun n => n == 3

/-- Attempt pattern: every download attempt fails. -/
def allAttemptsFail : Nat → Bool := fun _ => false

/-! Orchestrator outcome and exit code
(`src/interactor.rs` lines 265–268, `src/cli/mod.rs` `Cli::run`) -/

/-- The final success boolean of `TriggerTestRunInteractor::execute`:
`match (stat.state.as_str(), ignore_test_failures) { ("failure", Some(false) | None)
=> Ok(false), (_, _) => Ok(true) }`. -/
def runOutcome : String → Option Bool → Bool
  | "failure", some false => false
  | "failure", none => false
  | _, _ => true

/-- The exit-code mapping at the end of `Cli::run`:
`Ok(true) => exit(0), Ok(false) => exit(1), Err(_) => exit(1)`. -/
def exitCode : Except Unit Bool → Nat
  | .ok true => 0
  | .ok false => 1
  | .error _ => 1

/-! HTTP error adapter (`src/api.rs`, `api_error_adapter`) -/

/-- A reqwest response, reduced to the parts the adapter inspects: the HTTP
status code and the body text. -/
structure HttpResponse where
  status : Nat
  body : String
deriving DecidableEq, Repr

/-- The `ApiError` variants of `src/errors.rs` reachable from
`api_error_adapter` (payloads reduced to the data the adapter stores). -/
inductive ApiError where
  | InvalidAuthenticationToken
  | RequestFailedWithCode (status_code : Nat) (body : String)
  | RequestFailed
deriving DecidableEq, Repr

/-- Does `reqwest::Response::error_for_status_ref` produce an error? It does
exactly for client errors (400–499) and server errors (500–599). -/
def error_for_status (status : Nat) : Bool :=
  (400 ≤ status && status ≤ 499) || (500 ≤ status && status ≤ 599)

/-- The adapter `api_error_adapter`: a non-error status passes the response
through; an error status is mapped to `InvalidAuthenticationToken` for
401/403 (`StatusCode::UNAUTHORIZED | StatusCode::FORBIDDEN`) and otherwise to
`RequestFailedWithCode` carrying the status code and the body text. -/
def api_error_adapter (r : HttpResponse) : Except ApiError HttpResponse :=
  if error_for_status r.status then
    if r.status = 401 ∨ r.status = 403 then
      .error .InvalidAuthenticationToken
    else
      .error (.RequestFailedWithCode r.status r.body)
  else
    .ok r

/-! Result-file serialization dispatch (`src/interactor.rs`, `serialize_event`) -/

/-- An `OsStr` as seen through `OsStr::to_str`: either valid UTF-8 text or not. -/
inductive OsStrM where
  | utf8 (s : String)
  | nonUtf8 (bytes : List Nat)
deriving DecidableEq, Repr

/-- Rust `OsStr::to_str`. -/
def OsStrM.to_str : OsStrM → Option String
  | .utf8 s => some s
  | .nonUtf8 _ => none

/-- Result of `serialize_event`, keeping only which branch was taken:
JSON serialization, YAML serialization, or one of the two `InputError`s. -/
inductive SerializeResult where
  | json
  | yaml
  | invalidFileExtension (extension : String)
  | nonUTF8Path
deriving DecidableEq, Repr

/-- The dispatch of `serialize_event` on `path.extension().map(|f| f.to_str())`,
where `ext` is the result of `path.extension()`. -/
def serialize_event (ext : Option OsStrM) : SerializeResult :=
  match ext.map OsStrM.to_str with
  | some (some "json") => .json
  | some none => .json
  | some (some "yaml") => .yaml
  | some (some "yml") => .yaml
  | some (some x) => .invalidFileExtension x
  | none => .nonUTF8Path

/-! Local path computation for downloads
(`src/api.rs`, `RapiReqwestClient::download_artifact`, lines 342–348)

```
let id = artifact.id.strip_prefix('/').unwrap_or(&artifact.id);
let prefix_with_id = format!("{}/", run_id);
let relative_path = artifact.id.strip_prefix(&prefix_with_id).unwrap_or(id);
let relative_path = Path::new(&relative_path);
let mut absolute_path = base_path.clone();
absolute_path.push(relative_path);
```

Paths are modelled as `std::path` sees them on Unix: an absolute flag plus the
list of normal components (empty components and `.` are skipped by
`Path::components`). `PathBuf::push` appends a relative path and replaces the
whole path by an absolute one. -/

/-- A filesystem path: absolute flag plus component list. -/
structure RPath where
  absolute : Bool
  components : List String
deriving DecidableEq, Repr

/-- Split a character list at `/` separators; `cur` is the reversed current
component. -/
def splitSlash : List Char → List Char → List (List Char)
  | [], cur => [cur.reverse]
  | c :: rest, cur =>
    if c = '/' then cur.reverse :: splitSlash rest []
    else splitSlash rest (c :: cur)

/-- Parse a path string into `RPath` (Unix `Path::components` semantics:
empty components and `.` components are dropped). -/
def parsePath (s : String) : RPath :=
  { absolute := s.data.head? == some '/'
    components :=
      ((splitSlash s.data []).map fun l => String.mk l).filter
        fun c => !(c == "" || c == ".") }

/-- Rust `PathBuf::push`: an absolute argument replaces the path, a relative
one is appended. -/
def pushPath (base rel : RPath) : RPath :=
  if rel.absolute then rel
  else { absolute := base.absolute, components := base.components ++ rel.components }

/-- Rust `str::strip_prefix`: drop `pre` from the front of `s` when it is
a prefix, else `none`. -/
def strStripPre (s pre : String) : Option String :=
  if pre.data.isPrefixOf s.data then some (String.mk (s.data.drop pre.data.length))
  else none

/-- The relative path computed by `download_artifact`: strip the `"{run_id}/"`
run-id marker from the artifact id if present; otherwise use the artifact id
with one leading `/` (if present) stripped. -/
def artifactRelPath (run_id artifact_id : String) : RPath :=
  let id := (strStripPre artifact_id "/").getD artifact_id
  let prefixWithId := run_id ++ "/"
  let relative_path := (strStripPre artifact_id prefixWithId).getD id
  parsePath relative_path

/-- The absolute local path `download_artifact` writes to: the user-supplied
output directory `base_path` with the relative path pushed onto it. -/
def artifactLocalPath (run_id artifact_id : String) (base_path : RPath) : RPath :=
  pushPath base_path (artifactRelPath run_id artifact_id)

/-- One step of textual path normalization: `..` pops the last component,
anything else is appended. -/
def normStep (acc : List String) (c : String) : List String :=
  if c = ".." then acc.dropLast else acc ++ [c]

/-- Textual path normalization (resolve `..` components). -/
def normalizeComponents (cs : List String) : List String := cs.foldl normStep []

/-- Containment of a path in a base directory: same absoluteness and the
normalized base components are a prefix of the normalized path components. -/
def containedIn (p base : RPath) : Bool :=
  p.absolute == base.absolute &&
    (normalizeComponents base.components).isPrefixOf (normalizeComponents p.components)

/-! Artifact tree crawl (`src/artifacts.rs`, `fetch_artifact_list`)

The remote artifact tree is modelled as a tree of nodes. Listing a node's id
(`client.list_artifact(&token, &dir)`) answers with its children's `Artifact`
records; a `baddir` is a directory whose listing call fails (the spawned tokio
task `unwrap`s the error and panics, surfacing as a `JoinError` through
`try_concat`). The crawl keeps a frontier of directory entries, lists the whole
frontier per round, accumulates file entries, and repeats on the directory
entries until none remain. -/

/-- A node of the remote artifact tree. -/
inductive ANode where
  | file (id name : String)
  | dir (id name : String) (children : List ANode)
  | baddir (id name : String)

/-- The `Artifact` record the remote listing reports for this node. -/
def artifactOf : ANode → Artifact
  | .file i n => ⟨i, n, true⟩
  | .dir i n _ => ⟨i, n, false⟩
  | .baddir i n => ⟨i, n, false⟩

/-- The `is_file` flag of the node's `Artifact` record. -/
def ANode.isFile : ANode → Bool
  | .file _ _ => true
  | _ => false

/-- Children of a node (empty for files and for directories whose listing
fails, which never reveal children). -/
def childrenOf : ANode → List ANode
  | .file _ _ => []
  | .dir _ _ cs => cs
  | .baddir _ _ => []

mutual
/-- Node count of the subtree rooted at a node. -/
def sizeA : ANode → Nat
  | .file _ _ => 1
  | .dir _ _ cs => 1 + sizeL cs
  | .baddir _ _ => 1
/-- Total node count of a list of subtrees. -/
def sizeL : List ANode → Nat
  | [] => 0
  | n :: rest => sizeA n + sizeL rest
end

mutual
/-- Does the subtree contain a directory whose listing call fails? -/
def hasBad : ANode → Bool
  | .file _ _ => false
  | .dir _ _ cs => hasBadL cs
  | .baddir _ _ => true
/-- Does any subtree in the list contain a failing directory? -/
def hasBadL : List ANode → Bool
  | [] => false
  | n :: rest => hasBad n || hasBadL rest
end

mutual
/-- The `Artifact` records of all file-type leaf nodes of the subtree
(the subtree root itself counts when it is a file). -/
def fileLeaves : ANode → List Artifact
  | .file i n => [⟨i, n, true⟩]
  | .dir _ _ cs => fileLeavesL cs
  | .baddir _ _ => []
/-- File-type leaf records of a list of subtrees, in order. -/
def fileLeavesL : List ANode → List Artifact
  | [] => []
  | n :: rest => fileLeaves n ++ fileLeavesL rest
end

/-- One `list_artifact` call on a node's id: children records on success,
a failure (carrying the failed id) for a `baddir`. A file id is never listed
by the crawl (only `is_file == false` entries enter the frontier). -/
def listing : ANode → Except String (List ANode)
  | .file _ _ => .ok []
  | .dir _ _ cs => .ok cs
  | .baddir i _ => .error i

/-- One crawl round's batch of listing calls over the frontier
(`stream::iter(list) … buffer_unordered … try_concat`): the concatenation of
all children, or the failure of any single call. -/
def listBatch : List ANode → Except String (List ANode)
  | [] => .ok []
  | n :: rest =>
    match listing n, listBatch rest with
    | .error e, _ => .error e
    | .ok _, .error e => .error e
    | .ok cs, .ok more => .ok (cs ++ more)

/-- The crawl loop of `fetch_artifact_list`: list the whole frontier, push
file entries onto the accumulator, loop on the directory entries; stop when a
round yields no directory entry. Any failed listing call aborts the crawl with
`ArtifactError::ListFailed`. -/
def crawlLoop (acc : List Artifact) (frontier : List ANode) : Except String (List Artifact) :=
  match h : listBatch frontier with
  | .error e => .error e
  | .ok stats =>
    if hd : (stats.filter fun n => !n.isFile).isEmpty then
      .ok (acc ++ (stats.filter fun n => n.isFile).map artifactOf)
    else
      crawlLoop (acc ++ (stats.filter fun n => n.isFile).map artifactOf)
        (stats.filter fun n => !n.isFile)
termination_by sizeL frontier
decreasing_by
  have hone : ∀ m : ANode, 1 ≤ sizeA m := by
    intro m
    cases m <;> simp [sizeA]
  have hflt : ∀ l : List ANode, sizeL (l.filter fun n => !n.isFile) ≤ sizeL l := by
    intro l
    induction l with
    | nil => simp [sizeL]
    | cons m rest ih =>
      rw [List.filter_cons]
      by_cases hp : (!m.isFile) = true
      · rw [if_pos hp]
        simp only [sizeL]
        omega
      · rw [if_neg hp]
        have h1 := hone m
        simp only [sizeL]
        omega
  have hchild : ∀ (m : ANode) (cs : List ANode), listing m = .ok cs → sizeL cs + 1 = sizeA m := by
    intro m cs hm
    cases m with
    | file i nm =>
      simp [listing] at hm
      subst hm
      simp [sizeL, sizeA]
    | dir i nm children =>
      simp [listing] at hm
      subst hm
      simp [sizeA]
      omega
    | baddir i nm => simp [listing] at hm
  have happ : ∀ l₁ l₂ : List ANode, sizeL (l₁ ++ l₂) = sizeL l₁ + sizeL l₂ := by
    intro l₁ l₂
    induction l₁ with
    | nil => simp [sizeL]
    | cons m rest ih =>
      simp only [List.cons_append, sizeL, List.append_eq, ih]
      omega
  have hlsz : ∀ l s : List ANode, listBatch l = .ok s → sizeL s + l.length = sizeL l := by
    intro l
    induction l with
    | nil =>
      intro s hs
      simp [listBatch] at hs
      subst hs
      simp [sizeL]
    | cons m rest ih =>
      intro s hs
      simp only [listBatch] at hs
      cases hm : listing m with
      | error e => rw [hm] at hs; simp at hs
      | ok cs =>
        rw [hm] at hs
        cases hr : listBatch rest with
        | error e => rw [hr] at hs; simp at hs
        | ok more =>
          rw [hr] at hs
          simp at hs
          subst hs
          have h1 := hchild m cs hm
          have h2 := ih more hr
          rw [happ]
          simp only [sizeL, List.length_cons]
          omega
  have hne : stats.filter (fun n => !n.isFile) ≠ [] := by
    simpa [List.isEmpty_iff] using hd
  have hstats : stats ≠ [] := by
    intro hs
    rw [hs] at hne
    simp at hne
  have hfr : frontier ≠ [] := by
    intro hfe
    rw [hfe] at h
    simp [listBatch] at h
    exact hstats h
  have hsz := hlsz frontier stats h
  have hle := hflt stats
  have hlen : 1 ≤ frontier.length := List.length_pos.mpr hfr
  omega

/-- `fetch_artifact_list`: start the crawl from the run's artifact root
(the run id), with an empty accumulator. -/
def fetch_artifact_list (root : ANode) : Except String (List Artifact) :=
  crawlLoop [] [root]

/-! Run-status polling (`src/interactor.rs`)

`TriggerTestRunInteractor::execute` waits with
`loop { let stat = client.get_run(&id).await?; if stat.completed.is_some() { …; return … }
sleep(Duration::new(5, 0)).await; }` — one fresh `get_run` per iteration, 5 s
sleep between iterations.

`DownloadArtifactsInteractor::execute` waits with
`let stat = client.get_run(id).await?; if stat.completed.is_none() && wait {
loop { if stat.completed.is_some() { break; } sleep(Duration::new(5, 0)).await; } }` —
the status is fetched once, before the loop, and never refreshed inside it.

The server is modelled as the sequence of `get_run` answers indexed by poll
number; `fuel` bounds how many loop iterations we observe (`none` = the loop is
still running after `fuel` iterations). -/

/-- The run-status record (`src/api.rs`, `struct TestRun`); the `completed`
timestamp and `total_run_time` are opaque here. -/
structure TestRun where
  id : String
  state : String
  passed : Option Nat
  failed : Option Nat
  ignored : Option Nat
  completed : Option String
  total_run_time_seconds : Option Nat
  error_message : Option String
deriving DecidableEq, Repr

/-- The wait loop of `TriggerTestRunInteractor::execute`. Returns the terminal
status record, the total number of `get_run` calls made, and the total seconds
slept, or `none` if no terminal status was seen within `fuel` iterations. -/
def triggerWaitLoop (server : Nat → TestRun) (fuel polls slept : Nat) :
    Option (TestRun × Nat × Nat) :=
  match fuel with
  | 0 => none
  | fuel + 1 =>
    let stat := server polls
    if stat.completed.isSome then some (stat, polls + 1, slept)
    else triggerWaitLoop server fuel (polls + 1) (slept + 5)

/-- The inner wait loop of `DownloadArtifactsInteractor::execute`: re-checks
the same, never-refreshed `stat` each iteration. -/
def downloadWaitLoop (stat : TestRun) (fuel : Nat) : Option Unit :=
  match fuel with
  | 0 => none
  | fuel + 1 => if stat.completed.isSome then some () else downloadWaitLoop stat fuel

/-- The whole "Checking test run state..." step of
`DownloadArtifactsInteractor::execute`: enter the inner loop only when the
first fetched status is not completed and `wait` is set. -/
def downloadCheckRunState (stat : TestRun) (wait : Bool) (fuel : Nat) : Option Unit :=
  if stat.completed.isNone && wait then downloadWaitLoop stat fuel else some ()

/-! Concrete fixtures used by witnesses and counterexamples -/

/-- A not-yet-terminal status record. -/
def runningStatus : TestRun :=
  { id := "run1", state := "running", passed := none, failed := none, ignored := none
    completed := none, total_run_time_seconds := none, error_message := none }

/-- A terminal `passed` status record completed at time `t`. -/
def passedStatus : TestRun :=
  { id := "run1", state := "passed", passed := some 10, failed := some 0, ignored := some 0
    completed := some "t", total_run_time_seconds := some 42, error_message := none }

/-- Server answering `[running, running, passed@t]` to successive polls. -/
def statusSeq : Nat → TestRun
  | 0 => runningStatus
  | 1 => runningStatus
  | _ => passedStatus

/-- An artifact tree: root listing holds one file and one nested directory. -/
def sampleTree : ANode :=
  .dir "R1" "R1"
    [.file "R1/a.txt" "a.txt",
     .dir "R1/logs" "logs" [.file "R1/logs/b.txt" "b.txt"]]

/-- A zero-depth artifact tree: every root entry is a file. -/
def flatTree : ANode :=
  .dir "R2" "R2" [.file "R2/a" "a", .file "R2/b" "b"]

/-- An artifact tree with a directory whose listing call fails. -/
def badTree : ANode :=
  .dir "R3" "R3" [.file "R3/a" "a", .baddir "R3/broken" "broken"]

end MarathonCLI

namespace MarathonCLI

/-! Crawl lemmas -/

/-- One-step unfolding of `crawlLoop` (its defining equation, with the
termination bookkeeping stripped). -/
theorem crawlLoop_step (acc : List Artifact) (frontier : List ANode) :
    crawlLoop acc frontier =
      match listBatch frontier with
      | .error e => .error e
      | .ok stats =>
        if (stats.filter fun n => !n.isFile).isEmpty then
          .ok (acc ++ (stats.filter fun n => n.isFile).map artifactOf)
        else
          crawlLoop (acc ++ (stats.filter fun n => n.isFile).map artifactOf)
            (stats.filter fun n => !n.isFile) := by
  cases h : listBatch frontier with
  | error e => rw [crawlLoop.eq_def, h]
  | ok stats => rw [crawlLoop.eq_def, h]; rfl

/-- Unfolding of `crawlLoop` when the batch of listing calls fails. -/
theorem crawlLoop_eq_error {frontier : List ANode} {e : String}
    (h : listBatch frontier = .error e) (acc : List Artifact) :
    crawlLoop acc frontier = .error e := by
  rw [crawlLoop.eq_def, h]

/-- Unfolding of `crawlLoop` when the batch of listing calls succeeds. -/
theorem crawlLoop_eq_ok {frontier stats : List ANode}
    (h : listBatch frontier = .ok stats) (acc : List Artifact) :
    crawlLoop acc frontier =
      if (stats.filter fun n => !n.isFile).isEmpty then
        .ok (acc ++ (stats.filter fun n => n.isFile).map artifactOf)
      else
        crawlLoop (acc ++ (stats.filter fun n => n.isFile).map artifactOf)
          (stats.filter fun n => !n.isFile) := by
  rw [crawlLoop.eq_def, h]
  rfl

theorem hasBadL_eq_any (l : List ANode) : hasBadL l = l.any hasBad := by
  induction l with
  | nil => simp [hasBadL]
  | cons n rest ih => simp [hasBadL, ih]

theorem hasBadL_false_iff (l : List ANode) :
    hasBadL l = false ↔ ∀ n ∈ l, hasBad n = false := by
  rw [hasBadL_eq_any]
  simp [List.any_eq_true]

theorem listing_good {n : ANode} (h : hasBad n = false) :
    listing n = .ok (childrenOf n) := by
  cases n with
  | file i nm => rfl
  | dir i nm cs => rfl
  | baddir i nm => simp [hasBad] at h

theorem listing_ok_children {n : ANode} {cs : List ANode} (h : listing n = .ok cs) :
    cs = childrenOf n := by
  cases n with
  | file i nm => simp [listing] at h; simp [childrenOf, h]
  | dir i nm children => simp [listing] at h; simp [childrenOf, h]
  | baddir i nm => simp [listing] at h

theorem listBatch_ok_flat {l : List ANode} (hb : ∀ n ∈ l, hasBad n = false) :
    listBatch l = .ok (l.flatMap childrenOf) := by
  induction l with
  | nil => rfl
  | cons n rest ih =>
    simp only [listBatch]
    rw [listing_good (hb n (by simp)), ih (fun m hm => hb m (by simp [hm]))]
    simp

theorem good_children {n : ANode} (h : hasBad n = false) :
    ∀ m ∈ childrenOf n, hasBad m = false := by
  cases n with
  | file i nm => simp [childrenOf]
  | dir i nm cs =>
    simp only [childrenOf]
    exact (hasBadL_false_iff cs).mp h
  | baddir i nm => simp [childrenOf]

theorem good_flat {l : List ANode} (hb : ∀ n ∈ l, hasBad n = false) :
    ∀ m ∈ l.flatMap childrenOf, hasBad m = false := by
  intro m hm
  obtain ⟨n, hn, hmn⟩ := List.mem_flatMap.mp hm
  exact good_children (hb n hn) m hmn

theorem fileLeavesL_eq_flatMap (l : List ANode) : fileLeavesL l = l.flatMap fileLeaves := by
  induction l with
  | nil => rfl
  | cons n rest ih => simp [fileLeavesL, ih]

theorem fileLeaves_of_isFile {n : ANode} (h : n.isFile = true) :
    fileLeaves n = [artifactOf n] := by
  cases n with
  | file i nm => rfl
  | dir i nm cs => simp [ANode.isFile] at h
  | baddir i nm => simp [ANode.isFile] at h

theorem fileLeaves_of_not_isFile {n : ANode} (h : n.isFile = false) :
    fileLeaves n = fileLeavesL (childrenOf n) := by
  cases n with
  | file i nm => simp [ANode.isFile] at h
  | dir i nm cs => rfl
  | baddir i nm => rfl

theorem flatMap_fileLeaves_of_files {l : List ANode} (h : ∀ n ∈ l, n.isFile = true) :
    l.flatMap fileLeaves = l.map artifactOf := by
  induction l with
  | nil => rfl
  | cons n rest ih =>
    simp only [List.flatMap_cons, List.map_cons]
    rw [fileLeaves_of_isFile (h n (by simp)), ih (fun m hm => h m (by simp [hm]))]
    rfl

theorem flatMap_fileLeaves_of_dirs {l : List ANode} (h : ∀ n ∈ l, n.isFile = false) :
    l.flatMap fileLeaves = (l.flatMap childrenOf).flatMap fileLeaves := by
  induction l with
  | nil => rfl
  | cons n rest ih =>
    simp only [List.flatMap_cons, List.flatMap_append]
    rw [fileLeaves_of_not_isFile (h n (by simp)), ih (fun m hm => h m (by simp [hm])),
      fileLeavesL_eq_flatMap]

/-- What one crawl round does to the remaining file multiset: the files of the
listed batch are exactly the batch's file entries plus the files below the
batch's directory entries. -/
theorem round_perm (s : List ANode) :
    (s.flatMap fileLeaves).Perm
      ((s.filter fun n => n.isFile).map artifactOf ++
        ((s.filter fun n => !n.isFile).flatMap childrenOf).flatMap fileLeaves) := by
  have hp := List.filter_append_perm (fun n => n.isFile) s
  have h1 := (hp.flatMap_right fileLeaves).symm
  rw [List.flatMap_append] at h1
  have hfiles : (s.filter fun n => n.isFile).flatMap fileLeaves
      = (s.filter fun n => n.isFile).map artifactOf :=
    flatMap_fileLeaves_of_files (fun n hn => (List.mem_filter.mp hn).2)
  have hdirs : (s.filter fun n => !n.isFile).flatMap fileLeaves
      = ((s.filter fun n => !n.isFile).flatMap childrenOf).flatMap fileLeaves :=
    flatMap_fileLeaves_of_dirs (fun n hn => by simpa using (List.mem_filter.mp hn).2)
  rw [hfiles, hdirs] at h1
  exact h1

mutual
/-- Every record produced by `fileLeaves` has the `is_file` flag set. -/
theorem isFile_of_mem_fileLeaves (n : ANode) : ∀ a ∈ fileLeaves n, a.is_file = true := by
  cases n with
  | file i nm =>
    intro a ha
    simp only [fileLeaves, List.mem_singleton] at ha
    simp [ha]
  | dir i nm cs =>
    intro a ha
    exact isFile_of_mem_fileLeavesL cs a (by simpa [fileLeaves] using ha)
  | baddir i nm =>
    intro a ha
    simp [fileLeaves] at ha
/-- Every record produced by `fileLeavesL` has the `is_file` flag set. -/
theorem isFile_of_mem_fileLeavesL (l : List ANode) : ∀ a ∈ fileLeavesL l, a.is_file = true := by
  cases l with
  | nil =>
    intro a ha
    simp [fileLeavesL] at ha
  | cons n rest =>
    intro a ha
    simp only [fileLeavesL, List.mem_append] at ha
    rcases ha with h | h
    · exact isFile_of_mem_fileLeaves n a h
    · exact isFile_of_mem_fileLeavesL rest a h
end

/-- When no listing below the frontier fails, the crawl loop succeeds and its
result is, up to order, the accumulator plus all file leaves strictly below
the frontier's nodes. -/
theorem crawlLoop_ok_perm (acc : List Artifact) (frontier : List ANode) :
    (∀ n ∈ frontier, hasBad n = false) →
    ∃ l, crawlLoop acc frontier = .ok l ∧
      l.Perm (acc ++ (frontier.flatMap childrenOf).flatMap fileLeaves) := by
  induction acc, frontier using crawlLoop.induct with
  | case1 acc frontier e h =>
    intro hb
    rw [listBatch_ok_flat hb] at h
    simp at h
  | case2 acc frontier stats h hd =>
    intro hb
    have hstats : stats = frontier.flatMap childrenOf := by
      rw [listBatch_ok_flat hb] at h
      exact (Except.ok.inj h).symm
    refine ⟨acc ++ (stats.filter fun n => n.isFile).map artifactOf, ?_, ?_⟩
    · rw [crawlLoop_eq_ok h, if_pos hd]
    · have hdir : (stats.filter fun n => !n.isFile) = [] := List.isEmpty_iff.mp hd
      have hr := round_perm stats
      rw [hdir] at hr
      simp only [List.flatMap_nil, List.append_nil] at hr
      subst hstats
      exact hr.symm.append_left acc
  | case3 acc frontier stats h hd ih =>
    intro hb
    have hstats : stats = frontier.flatMap childrenOf := by
      rw [listBatch_ok_flat hb] at h
      exact (Except.ok.inj h).symm
    have hgood : ∀ n ∈ (stats.filter fun n => !n.isFile), hasBad n = false := by
      intro n hn
      have hn2 : n ∈ stats := (List.mem_filter.mp hn).1
      rw [hstats] at hn2
      exact good_flat hb n hn2
    obtain ⟨l, hl, hperm⟩ := ih hgood
    refine ⟨l, ?_, ?_⟩
    · rw [crawlLoop_eq_ok h, if_neg hd]
      exact hl
    · have hr := round_perm stats
      have h2 : (acc ++ (stats.filter fun n => n.isFile).map artifactOf) ++
            ((stats.filter fun n => !n.isFile).flatMap childrenOf).flatMap fileLeaves
          = acc ++ ((stats.filter fun n => n.isFile).map artifactOf ++
            ((stats.filter fun n => !n.isFile).flatMap childrenOf).flatMap fileLeaves) := by
        rw [List.append_assoc]
      rw [h2] at hperm
      have h3 := hperm.trans ((hr.symm).append_left acc)
      subst hstats
      exact h3

/-- Auxiliary: a successful batch means every frontier node's listing call
succeeded. -/
theorem listBatch_ok_listing {l s : List ANode} (h : listBatch l = .ok s) :
    ∀ n ∈ l, ∃ cs, listing n = .ok cs := by
  induction l generalizing s with
  | nil => simp
  | cons m rest ih =>
    simp only [listBatch] at h
    cases hm : listing m with
    | error e => rw [hm] at h; simp at h
    | ok cs =>
      rw [hm] at h
      cases hr : listBatch rest with
      | error e => rw [hr] at h; simp at h
      | ok more =>
        intro n hn
        rcases List.mem_cons.mp hn with hn | hn
        · exact ⟨cs, by rw [hn]; exact hm⟩
        · exact ih hr n hn

/-- Auxiliary: a successful batch contains all children of every frontier
node. -/
theorem listBatch_ok_mem_children {l s : List ANode} (h : listBatch l = .ok s) :
    ∀ n ∈ l, ∀ m ∈ childrenOf n, m ∈ s := by
  induction l generalizing s with
  | nil => simp
  | cons k rest ih =>
    simp only [listBatch] at h
    cases hk : listing k with
    | error e => rw [hk] at h; simp at h
    | ok cs =>
      rw [hk] at h
      cases hr : listBatch rest with
      | error e => rw [hr] at h; simp at h
      | ok more =>
        rw [hr] at h
        simp only [Except.ok.injEq] at h
        subst h
        intro n hn m hm
        rcases List.mem_cons.mp hn with hn | hn
        · subst hn
          rw [← listing_ok_children hk] at hm
          exact List.mem_append_left _ hm
        · exact List.mem_append_right _ (ih hr n hn m hm)

/-- A directory whose subtree contains a failing listing is not a file. -/
theorem hasBad_not_isFile {n : ANode} (h : hasBad n = true) : n.isFile = false := by
  cases n with
  | file i nm => simp [hasBad] at h
  | dir i nm cs => rfl
  | baddir i nm => rfl

/-- If a frontier node's subtree contains a failing listing but the current
batch succeeded, the next frontier again contains a node whose subtree
contains a failing listing. -/
theorem bad_in_next {frontier stats : List ANode} (h : listBatch frontier = .ok stats)
    {n : ANode} (hn : n ∈ frontier) (hbad : hasBad n = true) :
    ∃ c ∈ stats.filter fun m => !m.isFile, hasBad c = true := by
  obtain ⟨cs, hcs⟩ := listBatch_ok_listing h n hn
  cases n with
  | file i nm => simp [hasBad] at hbad
  | baddir i nm => simp [listing] at hcs
  | dir i nm children =>
    have hbl : hasBadL children = true := hbad
    rw [hasBadL_eq_any] at hbl
    obtain ⟨c, hc, hcb⟩ := List.any_eq_true.mp hbl
    have hcmem : c ∈ stats :=
      listBatch_ok_mem_children h _ hn c (by simpa [childrenOf] using hc)
    refine ⟨c, List.mem_filter.mpr ⟨hcmem, ?_⟩, hcb⟩
    simp [hasBad_not_isFile hcb]

/-- If any subtree in the frontier contains a failing listing, the crawl loop
aborts with an error (and returns no list at all). -/
theorem crawlLoop_error (acc : List Artifact) (frontier : List ANode) :
    (∃ n ∈ frontier, hasBad n = true) → ∃ e, crawlLoop acc frontier = .error e := by
  induction acc, frontier using crawlLoop.induct with
  | case1 acc frontier e h =>
    intro _
    exact ⟨e, crawlLoop_eq_error h acc⟩
  | case2 acc frontier stats h hd =>
    rintro ⟨n, hn, hbad⟩
    exfalso
    obtain ⟨c, hc, _⟩ := bad_in_next h hn hbad
    rw [List.isEmpty_iff.mp hd] at hc
    simp at hc
  | case3 acc frontier stats h hd ih =>
    rintro ⟨n, hn, hbad⟩
    obtain ⟨c, hc, hcb⟩ := bad_in_next h hn hbad
    obtain ⟨e, he⟩ := ih ⟨c, hc, hcb⟩
    exact ⟨e, by rw [crawlLoop_eq_ok h, if_neg hd]; exact he⟩

/-! Path lemmas -/

/-- Folding `normStep` over components free of `..` just appends them. -/
theorem foldl_normStep_no_up (cs : List String) (h : ".." ∉ cs) :
    ∀ acc, cs.foldl normStep acc = acc ++ cs := by
  induction cs with
  | nil => intro acc; simp
  | cons c rest ih =>
    intro acc
    have hc : c ≠ ".." := fun hcc => h (by simp [hcc])
    have hr : ".." ∉ rest := fun hm => h (by simp [hm])
    simp only [List.foldl_cons]
    rw [show normStep acc c = acc ++ [c] from by simp [normStep, hc], ih hr]
    simp

/-! Claims -/

/-- C1 (status: code_bug). First half of the claim holds: a download task
failing on attempts 1 and 2 and succeeding on attempt 3 completes successfully
and ticks the per-artifact progress counter exactly once. Second half fails on
the code: the `panic!` guard `if _try < 4` is always true inside
`for _try in 1..=3`, so a task whose download fails on all 3 attempts never
reaches the `panic!` branch — it falls out of the loop silently, ticks no
progress, and the batch still reports overall success (`Ok`). -/
theorem c1_download_retry_behavior :
    downloadTask failTwiceThenOk = (.success, 1) ∧
    downloadTask allAttemptsFail = (.fellThrough, 0) ∧
    download_artifacts [allAttemptsFail] = .ok 0 ∧
    ∀ attempt : Nat → Bool, (downloadTask attempt).1 ≠ .panicked := by
  refine ⟨by decide, by decide, by decide, ?_⟩
  intro attempt
  cases h1 : attempt 1 <;> cases h2 : attempt 2 <;> cases h3 : attempt 3 <;>
    simp [downloadTask, runAttempts, h1, h2, h3]

/-- C2 (status: confirmed). The orchestrator's final success boolean is `false`
exactly when the terminal state is `"failure"` and ignoring test failures was
not requested (`ignore_test_failures` is `Some false` or `None`); the exit-code
mapping sends `Ok(true)` to 0 and `Ok(false)` to 1, and any unrecovered error
also exits 1. -/
theorem c2_exit_outcome :
    (∀ (state : String) (ignore : Option Bool),
      runOutcome state ignore = false ↔ (state = "failure" ∧ ignore ≠ some true)) ∧
    exitCode (.ok true) = 0 ∧ exitCode (.ok false) = 1 ∧
    ∀ e : Unit, exitCode (.error e) = 1 := by
  refine ⟨?_, rfl, rfl, fun e => rfl⟩
  intro state ignore
  constructor
  · intro h
    unfold runOutcome at h
    split at h
    · exact ⟨rfl, by simp⟩
    · exact ⟨rfl, by simp⟩
    · simp at h
  · rintro ⟨hs, hi⟩
    subst hs
    cases ignore with
    | none => rfl
    | some b =>
      cases b with
      | false => rfl
      | true => exact absurd rfl hi
/-- C3 (status: confirmed). For every finite artifact tree whose listings all
succeed (including zero-depth trees whose root entries are all files, and
deeply nested trees), the crawl succeeds and returns exactly the file-type
leaf records reachable from the root — up to order, with no duplicates
(given that the tree's file leaves are pairwise distinct records, as remote
paths are), and with no directory records in the result. -/
theorem c3_crawl_completeness (root : ANode) (hf : root.isFile = false)
    (hb : hasBad root = false) (hnd : (fileLeaves root).Nodup) :
    ∃ l, fetch_artifact_list root = .ok l ∧ l.Perm (fileLeaves root) ∧ l.Nodup ∧
      ∀ a ∈ l, a.is_file = true := by
  obtain ⟨l, hl, hp⟩ := crawlLoop_ok_perm [] [root] (by simpa using hb)
  have hff : ([root].flatMap childrenOf).flatMap fileLeaves = fileLeaves root := by
    simp only [List.flatMap_cons, List.flatMap_nil, List.append_nil]
    rw [← fileLeavesL_eq_flatMap, ← fileLeaves_of_not_isFile hf]
  rw [hff] at hp
  simp only [List.nil_append] at hp
  refine ⟨l, hl, hp, hp.symm.nodup hnd, ?_⟩
  intro a ha
  exact isFile_of_mem_fileLeaves root a (hp.mem_iff.mp ha)

/-- C3 witness: the crawl of a two-level tree (one root file, one nested file)
returns exactly its two file leaves. -/
theorem c3_crawl_completeness_witness :
    (sampleTree.isFile = false ∧ hasBad sampleTree = false ∧
      (fileLeaves sampleTree).Nodup) ∧
    (∃ l, fetch_artifact_list sampleTree = .ok l ∧ l.Perm (fileLeaves sampleTree) ∧
      l.Nodup ∧ ∀ a ∈ l, a.is_file = true) := by
  have h1 : sampleTree.isFile = false := rfl
  have h2 : hasBad sampleTree = false := by simp [sampleTree, hasBad, hasBadL]
  have h3 : (fileLeaves sampleTree).Nodup := by
    have he : fileLeaves sampleTree =
        [⟨"R1/a.txt", "a.txt", true⟩, ⟨"R1/logs/b.txt", "b.txt", true⟩] := by
      simp [sampleTree, fileLeaves, fileLeavesL]
    rw [he]
    decide
  exact ⟨⟨h1, h2, h3⟩, c3_crawl_completeness sampleTree h1 h2 h3⟩

/-- C4 (status: confirmed). If any single listing call issued during the crawl
fails (the tree contains a reachable failing directory), the entire crawl
returns that failure — an `Except.error`, so no partial file list reaches the
caller. -/
theorem c4_crawl_fail_fast (root : ANode) (hb : hasBad root = true) :
    ∃ e, fetch_artifact_list root = .error e :=
  crawlLoop_error [] [root] ⟨root, by simp, hb⟩

/-- C4 witness: crawling a tree with one failing directory aborts with an
error. -/
theorem c4_crawl_fail_fast_witness :
    hasBad badTree = true ∧ ∃ e, fetch_artifact_list badTree = .error e := by
  have h : hasBad badTree = true := by simp [badTree, hasBad, hasBadL]
  exact ⟨h, c4_crawl_fail_fast badTree h⟩

/-- C5 (status: code_bug). The run-trigger interactor's wait loop behaves as
claimed: on the status sequence `[running, running, passed@t]` it makes exactly
3 `get_run` calls with two 5-second sleeps between them and returns the
`passed@t` record. But the artifact-download interactor's wait path violates
the claim: it fetches the status once before the loop and never refreshes it,
so when the first status is not completed (and `wait` is set) the loop spins
forever — for every number of iterations it is still running, even though the
server would report `completedAt` on any re-poll. -/
theorem c5_poll_loops :
    triggerWaitLoop statusSeq 3 0 0 = some (passedStatus, 3, 10) ∧
    ∀ fuel : Nat, downloadCheckRunState runningStatus true fuel = none := by
  constructor
  · decide
  · intro fuel
    have hc : runningStatus.completed = none := rfl
    have hloop : ∀ f : Nat, downloadWaitLoop runningStatus f = none := by
      intro f
      induction f with
      | zero => rfl
      | succ f ih => simp [downloadWaitLoop, hc, ih]
    simp [downloadCheckRunState, hc, hloop fuel]
/-- C6 counterexample: the claim fails on the code. For run id `"R1"`,
artifact id `"R1/../x"` and output directory `out`, `download_artifact`
computes local path `out/../x`, which is not contained in `out` — the code
performs no containment check. -/
theorem c6_path_escape_counterexample :
    containedIn (artifactLocalPath "R1" "R1/../x" ⟨false, ["out"]⟩) ⟨false, ["out"]⟩
      = false := by
  decide

/-- C6 (status: corrected). Amended claim: for every DownloadTask whose
computed relative path is not absolute and contains no `..` component, the
computed localPath is contained in the output directory; artifact ids whose
relative path contains `..` (or resolves to an absolute path) are not checked
by the code and can escape the output directory. -/
theorem c6_path_containment_amended (run_id artifact_id : String) (out : RPath)
    (h1 : (artifactRelPath run_id artifact_id).absolute = false)
    (h2 : ".." ∉ (artifactRelPath run_id artifact_id).components) :
    containedIn (artifactLocalPath run_id artifact_id out) out = true := by
  have hpush : pushPath out (artifactRelPath run_id artifact_id)
      = ⟨out.absolute, out.components ++ (artifactRelPath run_id artifact_id).components⟩ := by
    unfold pushPath
    rw [if_neg]
    simp [h1]
  unfold artifactLocalPath
  rw [hpush]
  unfold containedIn
  have hnorm : normalizeComponents
        (out.components ++ (artifactRelPath run_id artifact_id).components)
      = normalizeComponents out.components ++ (artifactRelPath run_id artifact_id).components := by
    unfold normalizeComponents
    rw [List.foldl_append]
    exact foldl_normStep_no_up _ h2 _
  rw [hnorm]
  simp [List.isPrefixOf_iff_prefix, List.prefix_append]

/-- C6 amended witness: a well-formed artifact id stays inside the output
directory. -/
theorem c6_path_containment_amended_witness :
    ((artifactRelPath "R1" "R1/logs/a.txt").absolute = false ∧
      ".." ∉ (artifactRelPath "R1" "R1/logs/a.txt").components) ∧
    containedIn (artifactLocalPath "R1" "R1/logs/a.txt" ⟨false, ["out"]⟩)
      ⟨false, ["out"]⟩ = true :=
  ⟨⟨by decide, by decide⟩,
    c6_path_containment_amended "R1" "R1/logs/a.txt" ⟨false, ["out"]⟩
      (by decide) (by decide)⟩

/-- C7 (status: confirmed). For run id `"R1"` and artifact id
`"R1/logs/a.txt"` the download writes to `<outputDir>/logs/a.txt`; for an
artifact id that does not start with the `"{run_id}/"` marker, a leading `/`
(if present) is stripped and the remainder is joined (Rust `PathBuf::push`
semantics) onto the output directory as-is. -/
theorem c7_download_path_mapping :
    (∀ out : RPath, artifactLocalPath "R1" "R1/logs/a.txt" out
      = ⟨out.absolute, out.components ++ ["logs", "a.txt"]⟩) ∧
    (∀ (run_id artifact_id : String) (out : RPath),
      strStripPre artifact_id (run_id ++ "/") = none →
      artifactLocalPath run_id artifact_id out
        = pushPath out (parsePath ((strStripPre artifact_id "/").getD artifact_id))) := by
  constructor
  · intro out
    have hrel : artifactRelPath "R1" "R1/logs/a.txt" = ⟨false, ["logs", "a.txt"]⟩ := by
      decide
    rw [artifactLocalPath, hrel]
    simp [pushPath]
  · intro run_id artifact_id out h
    rw [artifactLocalPath, artifactRelPath]
    simp only [h, Option.getD_none]

/-- C7 witness: an artifact id without the run-id marker (here with a leading
slash) is stripped of the slash and joined as-is. -/
theorem c7_download_path_mapping_witness :
    strStripPre "/logs/b.txt" ("R1" ++ "/") = none ∧
    artifactLocalPath "R1" "/logs/b.txt" ⟨false, ["out"]⟩
      = pushPath ⟨false, ["out"]⟩
          (parsePath ((strStripPre "/logs/b.txt" "/").getD "/logs/b.txt")) :=
  ⟨by decide, c7_download_path_mapping.2 "R1" "/logs/b.txt" ⟨false, ["out"]⟩ (by decide)⟩

/-- C8 counterexample: the claim fails on the code for non-2xx statuses
outside 400–599. A 304 response is non-2xx, yet `error_for_status` does not
flag it (only 4xx/5xx are client/server errors), so the adapter passes it
through unchanged instead of converting it to `RequestFailedWithCode`. -/
theorem c8_non2xx_counterexample :
    api_error_adapter ⟨304, "body"⟩ = .ok ⟨304, "body"⟩ ∧
    api_error_adapter ⟨304, "body"⟩ ≠ .error (.RequestFailedWithCode 304 "body") := by
  decide

/-- C8 (status: corrected). Amended claim: every response with status 401 or
403 is converted to the distinct `InvalidAuthenticationToken` error; every
other response with a 4xx/5xx status is converted to `RequestFailedWithCode`
carrying the status code and the response body; and every response whose
status is outside 400–599 (all 2xx, and also non-2xx informational/redirect
statuses) is passed through unchanged. -/
theorem c8_error_adapter_amended (r : HttpResponse) :
    (api_error_adapter r = .error .InvalidAuthenticationToken ↔
      r.status = 401 ∨ r.status = 403) ∧
    (400 ≤ r.status → r.status ≤ 599 → r.status ≠ 401 → r.status ≠ 403 →
      api_error_adapter r = .error (.RequestFailedWithCode r.status r.body)) ∧
    (r.status < 400 ∨ 599 < r.status → api_error_adapter r = .ok r) := by
  unfold api_error_adapter error_for_status
  refine ⟨?_, ?_, ?_⟩
  · constructor
    · intro h
      by_cases h43 : r.status = 401 ∨ r.status = 403
      · exact h43
      · exfalso
        by_cases hc : ((400 ≤ r.status && r.status ≤ 499)
            || (500 ≤ r.status && r.status ≤ 599)) = true
        · rw [if_pos hc, if_neg h43] at h
          simp at h
        · rw [if_neg hc] at h
          simp at h
    · intro h43
      have hc : ((400 ≤ r.status && r.status ≤ 499)
          || (500 ≤ r.status && r.status ≤ 599)) = true := by
        rcases h43 with h | h <;> simp [h]
      rw [if_pos hc, if_pos h43]
  · intro hlo hhi h1 h3
    have hc : ((400 ≤ r.status && r.status ≤ 499)
        || (500 ≤ r.status && r.status ≤ 599)) = true := by
      simp only [Bool.or_eq_true, Bool.and_eq_true, decide_eq_true_eq]
      omega
    rw [if_pos hc, if_neg (by simp [h1, h3])]
  · intro hout
    have hc : ((400 ≤ r.status && r.status ≤ 499)
        || (500 ≤ r.status && r.status ≤ 599)) = false := by
      simp only [Bool.or_eq_false_iff, Bool.and_eq_false_iff]
      rcases hout with h | h
      · constructor <;> left <;> simp <;> omega
      · constructor <;> right <;> simp <;> omega
    rw [if_neg (by simp [hc])]

/-- C8 amended witness: a 500 response becomes `RequestFailedWithCode` with
the status and body; a 304 response passes through. -/
theorem c8_error_adapter_amended_witness :
    (400 ≤ 500 ∧ 500 ≤ 599 ∧ 500 ≠ 401 ∧ 500 ≠ 403 ∧
      api_error_adapter ⟨500, "oops"⟩ = .error (.RequestFailedWithCode 500 "oops")) ∧
    (304 < 400 ∨ 599 < 304 → True) ∧
    api_error_adapter ⟨304, "x"⟩ = .ok ⟨304, "x"⟩ :=
  ⟨⟨by decide, by decide, by decide, by decide,
      (c8_error_adapter_amended ⟨500, "oops"⟩).2.1 (by decide) (by decide)
        (by decide) (by decide)⟩,
    fun _ => trivial,
    (c8_error_adapter_amended ⟨304, "x"⟩).2.2 (by decide)⟩

/-- C10 (status: confirmed). `serialize_event` dispatches on
`path.extension().map(|f| f.to_str())`: extension `"json"` serializes as JSON
and `"yaml"`/`"yml"` as YAML; any other UTF-8 extension yields
`InvalidFileExtension` naming that extension; a path with no extension at all
hits the `None` arm and yields `NonUTF8Path`; and an extension that exists but
is not valid UTF-8 hits the `Some(None)` arm and serializes as JSON. -/
theorem c10_serialize_event_dispatch :
    serialize_event (some (.utf8 "json")) = .json ∧
    serialize_event (some (.utf8 "yaml")) = .yaml ∧
    serialize_event (some (.utf8 "yml")) = .yaml ∧
    (∀ x : String, x ≠ "json" → x ≠ "yaml" → x ≠ "yml" →
      serialize_event (some (.utf8 x)) = .invalidFileExtension x) ∧
    serialize_event none = .nonUTF8Path ∧
    ∀ bytes : List Nat, serialize_event (some (.nonUtf8 bytes)) = .json := by
  refine ⟨rfl, rfl, rfl, ?_, rfl, fun bytes => rfl⟩
  intro x h1 h2 h3
  unfold serialize_event
  rw [show (some (OsStrM.utf8 x)).map OsStrM.to_str = some (some x) from rfl]
  split
  · simp_all
  · simp_all
  · simp_all
  · simp_all
  · simp_all
  · simp_all

/-- C10 witness: a `.txt` result file is rejected with
`InvalidFileExtension "txt"`. -/
theorem c10_serialize_event_dispatch_witness :
    ("txt" ≠ "json" ∧ "txt" ≠ "yaml" ∧ "txt" ≠ "yml") ∧
    serialize_event (some (.utf8 "txt")) = .invalidFileExtension "txt" :=
  ⟨⟨by decide, by decide, by decide⟩,
    c10_serialize_event_dispatch.2.2.2.1 "txt" (by decide) (by decide) (by decide)⟩

end MarathonCLI
